import Mathlib

/-!
Verification of the Save-Safe Minification Pipeline of the css-js-minifier
extension, as a shallow embedding of its TypeScript sources.

The embedding covers:
* the minification client `getMinifiedText`
  (src/services/minificationService.ts): file-type dispatch, the 5 MiB
  size ceiling, manual percent encoding of the request body, the
  5000 ms timeout race, and the HTTP status -> error-message table;
* the statistics helpers `calculateStats` and `formatBytes`
  (specified verbatim in the repository's TODO and QUICK-START documents);
* the file service (`createMinifiedFileName`, `saveAsNewFile`,
  `replaceDocumentContent`, `formatSizeReductionMessage`);
* the validators (`isValidFileType`, content-length check);
* the command handlers (`processDocument`, `minifyCommand`,
  `minifyInNewFileCommand`, `onSaveMinify`) including the
  `processingDocuments` recursion guard.

Asynchronous effects (the network, the file system, the editor buffer)
are modelled by explicit state passing: a `World` holds the editor and
file-system state, an `Env` supplies the outcome of each external call
(the fetch race and fallible write operations), and every pipeline
function returns the list of observable events (requests sent,
notifications shown, writes performed, guard transitions) it produced.
A thrown JavaScript exception is an `Option String` carried out of each
function (`none` = normal return).  Machine numbers are exact: byte
counts are `Nat`, JavaScript float arithmetic on them is `Rat`, and
`Math.round` / `toFixed` are modelled exactly on rationals.
-/

namespace Minifier

/-! ## UTF-8 and percent encoding

`new TextEncoder().encode(text)` produces the UTF-8 bytes of the text;
`encodeURIComponent` percent-encodes those bytes, letting the unreserved
ASCII set through.  We model bytes as `Nat` (< 256) and strings by their
`List Char` of Unicode scalar values, exactly as Lean's `String`.
-/

/-- UTF-8 encoding of one Unicode scalar value (as produced by
`TextEncoder` for each code point of the source text). -/
def utf8Bytes (c : Char) : List Nat :=
  let n := c.toNat
  if n < 128 then [n]
  else if n < 2048 then [192 + n / 64, 128 + n % 64]
  else if n < 65536 then [224 + n / 4096, 128 + (n / 64) % 64, 128 + n % 64]
  else [240 + n / 262144, 128 + (n / 4096) % 64, 128 + (n / 64) % 64, 128 + n % 64]

/-- UTF-8 bytes of a string: `new TextEncoder().encode(text)`. -/
def utf8Encode (s : String) : List Nat :=
  s.data.flatMap utf8Bytes

/-- UTF-8 byte length: `new TextEncoder().encode(text).length`. -/
def utf8Len (s : String) : Nat :=
  (utf8Encode s).length

/-- UTF-8 decoding of one scalar value from the front of a byte list,
returning the character and the remaining bytes (the text-recovery
direction of the round trip; permissive on byte patterns the encoder
never produces). -/
def utf8DecodeChar (l : List Nat) : Option (Char × List Nat) :=
  match l with
  | [] => none
  | b0 :: rest =>
    if b0 < 128 then some (Char.ofNat b0, rest)
    else if b0 < 224 then
      match rest with
      | b1 :: rest2 =>
        if 192 ≤ b0 ∧ 128 ≤ b1 ∧ b1 < 192 then
          some (Char.ofNat ((b0 - 192) * 64 + (b1 - 128)), rest2)
        else none
      | [] => none
    else if b0 < 240 then
      match rest with
      | b1 :: b2 :: rest3 =>
        if (128 ≤ b1 ∧ b1 < 192) ∧ (128 ≤ b2 ∧ b2 < 192) then
          some (Char.ofNat ((b0 - 224) * 4096 + (b1 - 128) * 64 + (b2 - 128)), rest3)
        else none
      | _ => none
    else
      match rest with
      | b1 :: b2 :: b3 :: rest4 =>
        if (128 ≤ b1 ∧ b1 < 192) ∧ (128 ≤ b2 ∧ b2 < 192) ∧ (128 ≤ b3 ∧ b3 < 192) then
          some (Char.ofNat
            ((b0 - 240) * 262144 + (b1 - 128) * 4096 + (b2 - 128) * 64 + (b3 - 128)), rest4)
        else none
      | _ => none

/-- Fuelled loop decoding scalar values until the byte list is exhausted
(one unit of fuel per decoded character suffices). -/
def utf8DecodeLoop : Nat → List Nat → Option (List Char)
  | _, [] => some []
  | 0, _ :: _ => none
  | fuel + 1, b0 :: rest =>
    match utf8DecodeChar (b0 :: rest) with
    | none => none
    | some (c, rest2) => (utf8DecodeLoop fuel rest2).map (fun cs => c :: cs)

/-- UTF-8 decoding of a whole byte list back to scalar values. -/
def utf8Decode (l : List Nat) : Option (List Char) :=
  utf8DecodeLoop l.length l

/-- The characters `encodeURIComponent` leaves unescaped
(`A-Z a-z 0-9 - _ . ! ~ * \x27 ( )`), as byte values. -/
def isUnreservedByte (b : Nat) : Bool :=
  (65 ≤ b && b ≤ 90) || (97 ≤ b && b ≤ 122) || (48 ≤ b && b ≤ 57) ||
  b == 45 || b == 95 || b == 46 || b == 33 || b == 126 ||
  b == 42 || b == 39 || b == 40 || b == 41

/-- Uppercase hex digit, as `encodeURIComponent` emits. -/
def hexDigitChar (n : Nat) : Char :=
  if n < 10 then Char.ofNat (48 + n) else Char.ofNat (55 + n)

/-- Value of a hex digit (both cases, as `decodeURIComponent` accepts). -/
def hexVal (c : Char) : Option Nat :=
  let n := c.toNat
  if 48 ≤ n ∧ n ≤ 57 then some (n - 48)
  else if 65 ≤ n ∧ n ≤ 70 then some (n - 65 + 10)
  else if 97 ≤ n ∧ n ≤ 102 then some (n - 97 + 10)
  else none

/-- Percent-encoding of one UTF-8 byte: unreserved bytes pass through,
every other byte becomes `%XX`. -/
def percentEncodeByte (b : Nat) : List Char :=
  if isUnreservedByte b then [Char.ofNat b]
  else [Char.ofNat 37, hexDigitChar (b / 16), hexDigitChar (b % 16)]

/-- Model of JavaScript `encodeURIComponent`: UTF-8 encode, then
percent-encode each byte. -/
def encodeURIComponent (s : String) : String :=
  ⟨(utf8Encode s).flatMap percentEncodeByte⟩

/-- The percent layer of `decodeURIComponent`: `%XX` becomes the byte
`XX`, any other character passes through as its code point (faithful on
the all-ASCII strings `encodeURIComponent` produces). -/
def percentDecode : List Char → Option (List Nat)
  | [] => some []
  | c :: cs =>
    if c.toNat = 37 then
      match cs with
      | h1 :: h2 :: cs2 =>
        match hexVal h1, hexVal h2 with
        | some v1, some v2 => (percentDecode cs2).map (fun bs => (16 * v1 + v2) :: bs)
        | _, _ => none
      | _ => none
    else (percentDecode cs).map (fun bs => c.toNat :: bs)

/-- Model of JavaScript `decodeURIComponent`: undo the percent layer,
then decode the UTF-8 bytes back to text. -/
def decodeURIComponent (s : String) : Option String :=
  (percentDecode s.data).bind fun bs => (utf8Decode bs).map fun cs => ⟨cs⟩

/-- The manually encoded request body built by `getMinifiedText`
(minificationService.ts line 122): `"input=" + encodeURIComponent(text)`. -/
def requestBody (text : String) : String :=
  "input=" ++ encodeURIComponent text

/-! ## Size statistics

`calculateStats` and `formatBytes` as given in the repository
(QUICK-START.md lines 60-96, TODO-INDEX part lines 228-240): sizes are
UTF-8 byte lengths and
`reductionPercent = Math.round(((originalSize - minifiedSize) / originalSize) * 100)`
with no further adjustment.
-/

/-- Exact model of JavaScript `Math.round`: nearest integer, ties toward
positive infinity. -/
def jsRound (q : ℚ) : Int :=
  ⌊q + 1 / 2⌋

/-- Exact model of `Number.prototype.toFixed(2)` for the nonnegative
values used here: two decimal places, rounding to nearest. -/
def jsToFixed2 (q : ℚ) : String :=
  let n : Int := ⌊q * 100 + 1 / 2⌋
  let frac := (n % 100).toNat
  toString (n / 100) ++ "." ++ (if frac < 10 then "0" else "") ++ toString frac

/-- Source `formatBytes` (TODO-INDEX part lines 236-239): under 1 KB render as
bytes, otherwise as KB with two decimals. -/
def formatBytes (bytes : Nat) : String :=
  let kb : ℚ := (bytes : ℚ) / 1024
  if kb < 1 then toString bytes ++ " B" else jsToFixed2 kb ++ " KB"

/-- The `MinificationStats` interface (QUICK-START.md lines 43-49).
`reductionPercent` is documented there as `Percentage (0-100)`. -/
structure MinificationStats where
  originalSize : Nat
  minifiedSize : Nat
  reductionPercent : Int
  originalSizeKB : String
  minifiedSizeKB : String
deriving DecidableEq

/-- Source `calculateStats` (QUICK-START.md lines 80-96): byte sizes via
`TextEncoder`, `reductionPercent = Math.round(((o - m) / o) * 100)`
(no clamping appears in the source), formatted sizes via `formatBytes`. -/
def calculateStats (originalText minifiedText : String) : MinificationStats :=
  let originalSize := utf8Len originalText
  let minifiedSize := utf8Len minifiedText
  { originalSize := originalSize
    minifiedSize := minifiedSize
    reductionPercent :=
      jsRound ((((originalSize : ℚ) - (minifiedSize : ℚ)) / (originalSize : ℚ)) * 100)
    originalSizeKB := formatBytes originalSize
    minifiedSizeKB := formatBytes minifiedSize }

/-! ## The minification client (src/services/minificationService.ts) -/

/-- One entry of `MINIFICATION_APIS`. -/
structure ApiConfig where
  url : String
  name : String
deriving DecidableEq

/-- Entry `MINIFICATION_APIS.css`. -/
def cssApi : ApiConfig :=
  { url := "https://www.toptal.com/developers/cssminifier/api/raw", name := "CSS Minifier" }

/-- Entry `MINIFICATION_APIS.javascript`. -/
def javascriptApi : ApiConfig :=
  { url := "https://www.toptal.com/developers/javascript-minifier/api/raw"
    name := "JavaScript Minifier" }

/-- Lookup `MINIFICATION_APIS[fileType]`: defined only for the keys css and
javascript, undefined otherwise. -/
def apiConfigFor (fileType : String) : Option ApiConfig :=
  if fileType = "css" then some cssApi
  else if fileType = "javascript" then some javascriptApi
  else none

/-- Constant `API_TIMEOUT_MS`. -/
def API_TIMEOUT_MS : Nat := 5000

/-- Constant `MAX_FILE_SIZE_BYTES` (5 MiB). -/
def MAX_FILE_SIZE_BYTES : Nat := 5 * 1024 * 1024

/-- Model of the localization catalog lookup `l10n.t(key, ...args)`.
The string tables are an external collaborator, so the lookup is modelled
as an injective pairing of the key with its arguments; with no arguments
it returns the key itself, which is also the library's fallback when a
key is missing from the bundle. -/
def l10nT (key : String) (args : List String) : String :=
  key ++ String.join (args.map fun a => "|" ++ a)

/-- JavaScript `String.prototype.includes`: substring test. -/
def jsIncludes (s sub : String) : Bool :=
  decide (sub.data <:+: s.data)

/-- Observable effects of one pipeline invocation, in order of
occurrence. -/
inductive Event
  /-- a `fetch` POST was issued with this url and body -/
  | apiRequest (url body : String)
  /-- call of `vscode.window.showErrorMessage` -/
  | notifyError (message : String)
  /-- call of `vscode.window.showInformationMessage` -/
  | notifyInfo (message : String)
  /-- call of `vscode.workspace.fs.writeFile` -/
  | fsWrite (path content : String)
  /-- call of `vscode.window.showTextDocument` -/
  | docOpen (path : String)
  /-- the `WorkspaceEdit` replacing a document's full range -/
  | docReplace (uri content : String)
  /-- call of `document.save()` persisting the buffer -/
  | docSave (uri : String)
  /-- call of `processingDocuments.add(uri)` -/
  | guardAdd (uri : String)
  /-- call of `processingDocuments.delete(uri)` -/
  | guardRemove (uri : String)
deriving DecidableEq

/-- Number of network requests in an event trace. -/
def countApiRequests (evs : List Event) : Nat :=
  (evs.filter fun e => match e with | .apiRequest _ _ => true | _ => false).length

/-- Number of in-place document replacements in an event trace. -/
def countReplaces (evs : List Event) : Nat :=
  (evs.filter fun e => match e with | .docReplace _ _ => true | _ => false).length

/-- Number of file-system writes in an event trace. -/
def countFsWrites (evs : List Event) : Nat :=
  (evs.filter fun e => match e with | .fsWrite _ _ => true | _ => false).length

/-- Whether an event is a guard (recursion-set) transition. -/
def isGuardEvent : Event → Bool
  | .guardAdd _ => true
  | .guardRemove _ => true
  | _ => false

/-- How the raced `fetch` promise settles when the timer does not win:
either an HTTP response or a rejection (DNS failure, connection refused,
...).  `jsonErrorDetail` models `await response.json()` on an error
response: `none` = the body is not JSON (parsing throws), `some none` =
JSON without `errors[0].detail`, `some (some d)` = first error detail
`d`. -/
inductive FetchOutcome
  | response (status : Nat) (statusText : String)
      (jsonErrorDetail : Option (Option String)) (bodyText : String)
  | reject (message : String)
deriving DecidableEq

/-- Outcome of one `Promise.race([fetch ..., timeoutPromise])`:
whether the 5000 ms timer settles first, and how the fetch settles
otherwise. -/
structure FetchEnv where
  timerWins : Bool
  outcome : FetchOutcome
deriving DecidableEq

/-- Predicate `Response.ok`: status in the 200-299 range. -/
def statusOk (status : Nat) : Bool :=
  200 ≤ status && status ≤ 299

/-- The status-code fallback table of `getMinifiedText`
(minificationService.ts lines 152-173), used only when the JSON error
body could not be parsed. -/
def statusTableMessage (apiConfig : ApiConfig) (fileType : String)
    (status : Nat) (statusText : String) : String :=
  if status = 400 then l10nT "minificationService.error.missingInput" []
  else if status = 405 then l10nT "minificationService.error.invalidMethod" []
  else if status = 406 then l10nT "minificationService.error.invalidContentType" []
  else if status = 413 then l10nT "minificationService.error.fileTooLarge" []
  else if status = 422 then l10nT "minificationService.error.invalidSyntax" [fileType]
  else if status = 429 then l10nT "minificationService.error.rateLimitExceeded" []
  else l10nT "minificationService.error.apiError" [apiConfig.name, toString status, statusText]

/-- The catch block of `getMinifiedText` (lines 189-211): classify the
thrown error's message by substring and produce the user-facing error
message. -/
def catchUserMessage (apiConfig : ApiConfig) (fileType errorMessage : String) : String :=
  if jsIncludes errorMessage "timed out after" then
    l10nT "minificationService.error.timeout" [apiConfig.name]
  else if jsIncludes errorMessage "Failed to fetch" || jsIncludes errorMessage "fetch" then
    l10nT "minificationService.error.network" []
  else
    l10nT "minificationService.error.generic" [fileType, errorMessage]

/-- Result of one `getMinifiedText` call: the returned value
(`string | null`) and the events it produced. -/
structure MinifyRun where
  result : Option String
  events : List Event
deriving DecidableEq

/-- Shallow embedding of `getMinifiedText`
(src/services/minificationService.ts lines 98-212).

Control flow as in the source: unsupported file type -> notify and
return null; UTF-8 size above `MAX_FILE_SIZE_BYTES` -> notify
(`fileSize.tooLarge` with the size in MB via `toFixed(2)`) and return
null, with no fetch issued; otherwise issue the fetch with the manually
encoded body and race it against the 5000 ms timer.  A winning timer, a
rejected fetch, or a non-ok status all throw, and the catch block turns
the thrown message into one error notification and returns null.  On an
ok status the raw body is returned (the `typeof minifiedText !==
"string"` guard cannot fire, `Response.text()` always yields a
string). -/
def getMinifiedText (text fileType : String) (fe : FetchEnv) : MinifyRun :=
  match apiConfigFor fileType with
  | none =>
    { result := none
      events := [.notifyError (l10nT "minificationService.fileType.unsupported" [fileType])] }
  | some apiConfig =>
    let fileSizeBytes := utf8Len text
    if fileSizeBytes > MAX_FILE_SIZE_BYTES then
      { result := none
        events := [.notifyError (l10nT "minificationService.fileSize.tooLarge"
          [jsToFixed2 ((fileSizeBytes : ℚ) / (1024 * 1024))])] }
    else
      let manuallyEncoded := requestBody text
      let reqEv : Event := .apiRequest apiConfig.url manuallyEncoded
      if fe.timerWins then
        let em := apiConfig.name ++ " API request timed out after " ++
          toString API_TIMEOUT_MS ++ "ms"
        { result := none, events := [reqEv, .notifyError (catchUserMessage apiConfig fileType em)] }
      else
        match fe.outcome with
        | .reject msg =>
          { result := none
            events := [reqEv, .notifyError (catchUserMessage apiConfig fileType msg)] }
        | .response status statusText jsonErrorDetail bodyText =>
          if statusOk status then
            { result := some bodyText, events := [reqEv] }
          else
            let em :=
              match jsonErrorDetail with
              | some (some d) => d
              | some none => ""
              | none => statusTableMessage apiConfig fileType status statusText
            { result := none
              events := [reqEv, .notifyError (catchUserMessage apiConfig fileType em)] }

/-- The `MinificationResult` interface (QUICK-START.md lines 50-56). -/
structure MinificationResult where
  minifiedText : String
  stats : MinificationStats
deriving DecidableEq

/-- Result of the stats-returning `getMinifiedText` variant. -/
structure MinifyRunR where
  result : Option MinificationResult
  events : List Event
deriving DecidableEq

/-- The `MinificationResult`-returning `getMinifiedText` consumed by the
command handlers: per QUICK-START.md ("Tercer Paso", lines 99-131) the
string-returning core is unchanged and a success additionally carries
`calculateStats(text, minifiedText)`; error paths still yield null. -/
def getMinifiedResult (text fileType : String) (fe : FetchEnv) : MinifyRunR :=
  let run := getMinifiedText text fileType fe
  { result := run.result.map fun mt => { minifiedText := mt, stats := calculateStats text mt }
    events := run.events }

/-! ## Validators (src/utils/validators.ts) -/

/-- Source `isValidFileType`: css or javascript only. -/
def isValidFileType (fileType : String) : Bool :=
  fileType == "css" || fileType == "javascript"

/-- The message `validateFileType` shows on an unsupported type. -/
def fileTypeErrorMessage (fileType : String) : String :=
  "File type \x27" ++ fileType ++
    "\x27 is not supported. Only CSS and JavaScript files can be minified."

/-- The message `validateContentLength` shows on empty content. -/
def emptyContentMessage (fileType : String) : String :=
  "Cannot minify empty " ++ fileType ++ " file. Please add some content first."

/-! ## Documents, configuration, world state -/

/-- A text document as the pipeline sees it: identity (uri), path on
disk (`fileName`), declared language (`languageId`).  The current text
lives in the `World`, keyed by uri. -/
structure Doc where
  uri : String
  fileName : String
  languageId : String
deriving DecidableEq

/-- The css-js-minifier configuration keys read by the pipeline.
Source names: `minifyOnSave`, `minifyInNewFile`, `minifiedNewFilePrefix`,
`autoOpenNewFile`, `showSizeReduction`. -/
structure Config where
  minifyOnSave : Bool := false
  minifyInNewFile : Bool := false
  minifiedNewFilePre : String := ".min"
  autoOpenNewFile : Bool := false
  showSizeReduction : Bool := true

/-- Editor and file-system state threaded through an invocation. -/
structure World where
  /-- the `vscode.window.activeTextEditor` (its document), if any -/
  activeDoc : Option Doc
  /-- buffer contents by document uri (`document.getText()`) -/
  content : String → String
  /-- on-disk contents by path -/
  fs : String → String

/-- Outcomes of the external calls an invocation makes: how each fetch
settles (keyed by the text and file type sent) and whether each write
operation (file write, or workspace edit plus save, keyed by its
path/uri) succeeds or throws. -/
structure Env where
  fetchBehavior : String → String → FetchEnv
  writeOutcome : String → Except String Unit

/-- Interface `MinifyOptions` (src/commands/minifyCommand.ts lines 29-33).
Source field names: `saveAsNewFile`, `filePrefix`, `debugSource`;
absent optional fields are modelled by their JavaScript-falsy values. -/
structure MinifyOptions where
  saveAsNewFile : Bool := false
  filePref : String := ""
  debugSource : Option String := none
deriving DecidableEq

/-- Result of a pipeline function: an escaped exception (if any), the
world afterwards, and the events produced before/while exiting. -/
structure PDResult where
  exc : Option String
  world : World
  events : List Event

/-! ## File service (src/services/fileService.ts, stats version) -/

/-- Expression `fileName.split("/").pop() || "file"`. -/
def lastPathSegment (p : String) : String :=
  match (p.splitOn "/").getLast? with
  | some s => if s = "" then "file" else s
  | none => "file"

/-- Source `formatSizeReductionMessage` (fileService.ts lines 14-43): basic
message when the statistics feature is disabled, a no-size-change
variant at zero percent, and the full variant otherwise. -/
def formatSizeReductionMessage (cfg : Config) (fileName : String)
    (stats : MinificationStats) (isNewFile : Bool) : String :=
  if !cfg.showSizeReduction then
    if isNewFile then "File successfully minified and saved as: " ++ fileName
    else fileName ++ " has been successfully minified."
  else if stats.reductionPercent = 0 then
    if isNewFile then
      "File successfully minified and saved as: " ++ fileName ++
        "! No size change (" ++ stats.originalSizeKB ++ ")"
    else fileName ++ " successfully minified! No size change (" ++ stats.originalSizeKB ++ ")"
  else
    if isNewFile then
      "File successfully minified and saved as: " ++ fileName ++ "! Size reduced by " ++
        toString stats.reductionPercent ++ "% (" ++ stats.originalSizeKB ++ " → " ++
        stats.minifiedSizeKB ++ ")"
    else
      fileName ++ " successfully minified! Size reduced by " ++
        toString stats.reductionPercent ++ "% (" ++ stats.originalSizeKB ++ " → " ++
        stats.minifiedSizeKB ++ ")"

/-- Strip a suffix from a character list if present (helper for the
anchored regex `/(\.css|\.js)$/`). -/
def dropSuffix (l suf : List Char) : Option (List Char) :=
  if suf.length ≤ l.length ∧ l.drop (l.length - suf.length) = suf then
    some (l.take (l.length - suf.length))
  else none

/-- Source `createMinifiedFileName` (fileService.ts lines 188-192):
`originalFileName.replace(/(\.css|\.js)$/, prefix + "$1")` — insert the
prefix before a final `.css` or `.js`; a name matching neither is
returned unchanged. -/
def createMinifiedFileName (originalFileName pre : String) : String :=
  match dropSuffix originalFileName.data ".css".data with
  | some stem => ⟨stem ++ pre.data ++ ".css".data⟩
  | none =>
    match dropSuffix originalFileName.data ".js".data with
    | some stem => ⟨stem ++ pre.data ++ ".js".data⟩
    | none => originalFileName

/-- Source `saveAsNewFile` (fileService.ts lines 75-102): write the minified
bytes to the new path (a throwing write escapes), optionally open the
new file, then show the success notification built by
`formatSizeReductionMessage` (passed through `l10n.t` verbatim). -/
def saveAsNewFile (cfg : Config) (env : Env) (w : World)
    (minifiedText newFileName : String) (stats : MinificationStats) : PDResult :=
  match env.writeOutcome newFileName with
  | .error e => { exc := some e, world := w, events := [] }
  | .ok _ =>
    let w1 : World :=
      { w with fs := fun p => if p = newFileName then minifiedText else w.fs p }
    let openEvs : List Event := if cfg.autoOpenNewFile then [.docOpen newFileName] else []
    let fileName := lastPathSegment newFileName
    let message := formatSizeReductionMessage cfg fileName stats true
    { exc := none
      world := w1
      events := [.fsWrite newFileName minifiedText] ++ openEvs ++
        [.notifyInfo (l10nT message [])] }

/-- Source `replaceDocumentContent` (fileService.ts lines 137-159): replace the
whole document range, save it (a throwing edit/save escapes before any
notification), then show the in-place success notification. -/
def replaceDocumentContent (cfg : Config) (env : Env) (w : World) (doc : Doc)
    (minifiedText : String) (stats : MinificationStats) : PDResult :=
  match env.writeOutcome doc.uri with
  | .error e => { exc := some e, world := w, events := [] }
  | .ok _ =>
    let w1 : World :=
      { w with
        content := fun u => if u = doc.uri then minifiedText else w.content u
        fs := fun p => if p = doc.fileName then minifiedText else w.fs p }
    let fileName := lastPathSegment doc.fileName
    let message := formatSizeReductionMessage cfg fileName stats false
    { exc := none
      world := w1
      events := [.docReplace doc.uri minifiedText, .docSave doc.uri,
        .notifyInfo (l10nT "fileService.inPlace.success" [message])] }

/-- Modelled from the spec: `saveDocumentSilently` is imported by the
command handlers (src/commands/minifyCommand.ts line 15) from the file
service, but its definition is not among the sources.  Per the handlers'
comments it persists the document without re-triggering the save
pipeline; modelled as a plain save of the document's current buffer. -/
def saveDocumentSilently (w : World) (doc : Doc) : PDResult :=
  { exc := none
    world := { w with fs := fun p => if p = doc.fileName then w.content doc.uri else w.fs p }
    events := [.docSave doc.uri] }

/-! ## Command handlers (src/commands/minifyCommand.ts) -/

/-- Source `processDocument` (minifyCommand.ts lines 63-99): validate the file
type then the content (each showing its own error message and ending the
invocation), call the minification service (which reports its own
errors), then write back — to a sibling file when `options.saveAsNewFile`
and a truthy (non-empty) `options.filePrefix` are given, otherwise
in place, with an explicit silent save for manual commands.  Errors
thrown by the write-back are not caught here and escape. -/
def processDocument (w : World) (env : Env) (cfg : Config) (doc : Doc)
    (opts : MinifyOptions) : PDResult :=
  let fileType := doc.languageId
  let text := w.content doc.uri
  if isValidFileType fileType = false then
    { exc := none, world := w, events := [.notifyError (fileTypeErrorMessage fileType)] }
  else if text = "" then
    -- validateContentLength: text.length === 0
    { exc := none, world := w, events := [.notifyError (emptyContentMessage fileType)] }
  else
    let run := getMinifiedResult text fileType (env.fetchBehavior text fileType)
    match run.result with
    | none => { exc := none, world := w, events := run.events }
    | some res =>
      if opts.saveAsNewFile = true ∧ opts.filePref ≠ "" then
        let newFileName := createMinifiedFileName doc.fileName opts.filePref
        let r := saveAsNewFile cfg env w res.minifiedText newFileName res.stats
        { r with events := run.events ++ r.events }
      else
        let r := replaceDocumentContent cfg env w doc res.minifiedText res.stats
        match r.exc with
        | some e => { exc := some e, world := r.world, events := run.events ++ r.events }
        | none =>
          if opts.debugSource = some "manual" then
            let r2 := saveDocumentSilently r.world doc
            { exc := none, world := r2.world, events := run.events ++ r.events ++ r2.events }
          else
            { exc := none, world := r.world, events := run.events ++ r.events }

/-- Source `minifyCommand` (minifyCommand.ts lines 123-140): with an active
editor, process its document with `debugSource: "manual"`; the
`explorer` constant is that same editor's document uri, so when it is
set the handler additionally re-opens that uri and processes the
resulting (current) document a second time, with default options. -/
def minifyCommand (w : World) (env : Env) (cfg : Config) : PDResult :=
  match w.activeDoc with
  | none => { exc := none, world := w, events := [] }
  | some doc =>
    let r1 := processDocument w env cfg doc { debugSource := some "manual" }
    match r1.exc with
    | some e => { exc := some e, world := r1.world, events := r1.events }
    | none =>
      let r2 := processDocument r1.world env cfg doc {}
      { exc := r2.exc, world := r2.world, events := r1.events ++ r2.events }

/-- Source `minifyInNewFileCommand` (minifyCommand.ts lines 164-192): as
`minifyCommand` but with `saveAsNewFile: true` and the configured
filename prefix; again both the active-editor branch and the explorer
branch run on the same document. -/
def minifyInNewFileCommand (w : World) (env : Env) (cfg : Config) : PDResult :=
  match w.activeDoc with
  | none => { exc := none, world := w, events := [] }
  | some doc =>
    -- the handler mutates the single shared options object
    -- (`options.debugSource = "manual"`) before the first call, so the
    -- explorer-branch call sees the same options
    let opts : MinifyOptions :=
      { saveAsNewFile := true, filePref := cfg.minifiedNewFilePre
        debugSource := some "manual" }
    let r1 := processDocument w env cfg doc opts
    match r1.exc with
    | some e => { exc := some e, world := r1.world, events := r1.events }
    | none =>
      let r2 := processDocument r1.world env cfg doc opts
      { exc := r2.exc, world := r2.world, events := r1.events ++ r2.events }

/-- Result of one `onSaveMinify` invocation: escaped exception, guard
set afterwards, world afterwards, events produced. -/
structure SaveResult where
  exc : Option String
  guard : List String
  world : World
  events : List Event

/-- Source `onSaveMinify` (minifyCommand.ts lines 221-266).  The
`processingDocuments` set is the guard state `g` (uris of documents
currently in the save-triggered in-place branch).  A save event for a
uri already present returns immediately with no work.  Otherwise, for a
css/javascript document with content: the new-file configuration
delegates to `processDocument`; the in-place path adds the uri to the
guard, runs the minification and replacement inside `try`, and the
`finally` removes the uri again before any thrown error escapes. -/
def onSaveMinify (g : List String) (w : World) (env : Env) (cfg : Config)
    (doc : Doc) : SaveResult :=
  let documentUri := doc.uri
  if documentUri ∈ g then
    { exc := none, guard := g, world := w, events := [] }
  else
    let fileType := doc.languageId
    if fileType = "css" ∨ fileType = "javascript" then
      let text := w.content doc.uri
      if text = "" then
        -- validateContentLength shows its message and the branch ends
        { exc := none, guard := g, world := w
          events := [.notifyError (emptyContentMessage fileType)] }
      else if cfg.minifyInNewFile then
        let r := processDocument w env cfg doc
          { saveAsNewFile := true, filePref := cfg.minifiedNewFilePre }
        { exc := r.exc, guard := g, world := r.world, events := r.events }
      else
        let g1 := g.insert documentUri
        let run := getMinifiedResult text fileType (env.fetchBehavior text fileType)
        let r : PDResult :=
          match run.result with
          | none => { exc := none, world := w, events := [] }
          | some res => replaceDocumentContent cfg env w doc res.minifiedText res.stats
        let g2 := g1.erase documentUri
        { exc := r.exc, guard := g2, world := r.world
          events := Event.guardAdd documentUri :: (run.events ++ r.events) ++
            [Event.guardRemove documentUri] }
    else
      { exc := none, guard := g, world := w, events := [] }

/-! ## Concrete inputs used by the witness theorems -/

/-- A text of 5 MiB + 1 bytes (each `a` is one UTF-8 byte). -/
def bigText : String := ⟨List.replicate 5242881 'a'⟩

/-- A fetch outcome that is never reached in the witnesses that use it. -/
def feIdle : FetchEnv := { timerWins := false, outcome := .reject "unused" }

/-- Document for the C9 counterexample: language css, filename without a
supported extension. -/
def doc9 : Doc := { uri := "u9", fileName := "style.txt", languageId := "css" }

/-- World for the C9 counterexample. -/
def w9 : World := { activeDoc := some doc9, content := fun _ => "b \x7b \x7d", fs := fun _ => "orig" }

/-- Environment for the C9 counterexample: the fetch succeeds with body
`m9`, writes succeed. -/
def env9 : Env :=
  { fetchBehavior := fun _ _ => { timerWins := false, outcome := .response 200 "OK" none "m9" }
    writeOutcome := fun _ => .ok () }

/-- Default configuration used by several witnesses. -/
def cfgD : Config := {}

/-- Document for the C8 witness: a css file named `style.css`. -/
def doc8 : Doc := { uri := "u8", fileName := "style.css", languageId := "css" }

/-- Document for the C8 witness, javascript case: a file named `app.js`. -/
def doc8j : Doc := { uri := "u8j", fileName := "app.js", languageId := "javascript" }

/-- World for the C8 witness, javascript case. -/
def w8j : World := { activeDoc := some doc8j, content := fun _ => "b", fs := fun _ => "orig" }

/-- World for the C8 witness. -/
def w8 : World := { activeDoc := some doc8, content := fun _ => "b", fs := fun _ => "orig" }

/-- Document for the guard witnesses. -/
def doc1 : Doc := { uri := "u1", fileName := "a.css", languageId := "css" }

/-- World for the guard witnesses. -/
def w1 : World := { activeDoc := some doc1, content := fun _ => "x", fs := fun _ => "orig" }

/-- Environment for the guard witnesses: fetch succeeds, writes succeed. -/
def env1 : Env :=
  { fetchBehavior := fun _ _ => { timerWins := false, outcome := .response 200 "OK" none "y" }
    writeOutcome := fun _ => .ok () }

/-- Environment for the C10 witness: minifying "x" yields "y", minifying
"y" yields "z"; writes succeed. -/
def env10 : Env :=
  { fetchBehavior := fun t _ =>
      if t = "x" then { timerWins := false, outcome := .response 200 "OK" none "y" }
      else { timerWins := false, outcome := .response 200 "OK" none "z" }
    writeOutcome := fun _ => .ok () }

/-- Timer-wins fetch environment for the C3 witness. -/
def feTimer : FetchEnv := { timerWins := true, outcome := .reject "unused" }

/-- A 422 response with an unparsable body, for the C4 witness. -/
def fe422 : FetchEnv :=
  { timerWins := false, outcome := .response 422 "Unprocessable Entity" none "" }

end Minifier

namespace Minifier

/-! ## Character and encoding lemmas -/

theorem char_toNat_lt (c : Char) : c.toNat < 1114112 := by
  rcases c.valid with h | ⟨_, h2⟩
  · exact Nat.lt_trans h (by decide)
  · exact h2

theorem toNat_ofNat_valid (n : Nat) (h : n < 55296) : (Char.ofNat n).toNat = n := by
  simp [Char.ofNat, Nat.isValidChar, h, Char.toNat, Char.ofNatAux,
    BitVec.toNat_ofNatLt, UInt32.toNat]

theorem utf8DecodeChar_utf8Bytes (c : Char) (bs : List Nat) :
    utf8DecodeChar (utf8Bytes c ++ bs) = some (c, bs) := by
  have hlt : c.toNat < 1114112 := char_toNat_lt c
  by_cases h1 : c.toNat < 128
  · rw [show utf8Bytes c = [c.toNat] by simp [utf8Bytes, h1], List.cons_append,
      List.nil_append]
    simp only [utf8DecodeChar, h1, if_pos, Char.ofNat_toNat]
  · by_cases h2 : c.toNat < 2048
    · rw [show utf8Bytes c = [192 + c.toNat / 64, 128 + c.toNat % 64] by
        simp [utf8Bytes, h1, h2], List.cons_append, List.cons_append, List.nil_append]
      have ha : ¬ 192 + c.toNat / 64 < 128 := by omega
      have hb : 192 + c.toNat / 64 < 224 := by omega
      have hc : 192 ≤ 192 + c.toNat / 64 ∧ 128 ≤ 128 + c.toNat % 64 ∧
          128 + c.toNat % 64 < 192 := by omega
      simp only [utf8DecodeChar, ha, hb, hc, true_and, and_true, and_self, if_true, if_false,
        ite_true, ite_false, if_pos, if_neg, not_false_iff]
      rw [show (192 + c.toNat / 64 - 192) * 64 + (128 + c.toNat % 64 - 128) = c.toNat by omega,
        Char.ofNat_toNat]
    · by_cases h3 : c.toNat < 65536
      · rw [show utf8Bytes c =
            [224 + c.toNat / 4096, 128 + (c.toNat / 64) % 64, 128 + c.toNat % 64] by
          simp [utf8Bytes, h1, h2, h3], List.cons_append, List.cons_append,
          List.cons_append, List.nil_append]
        have ha : ¬ 224 + c.toNat / 4096 < 128 := by omega
        have hb : ¬ 224 + c.toNat / 4096 < 224 := by omega
        have hb2 : 224 + c.toNat / 4096 < 240 := by omega
        have hc : (128 ≤ 128 + (c.toNat / 64) % 64 ∧ 128 + (c.toNat / 64) % 64 < 192) ∧
            128 ≤ 128 + c.toNat % 64 ∧ 128 + c.toNat % 64 < 192 := by omega
        simp only [utf8DecodeChar, ha, hb, hb2, hc, true_and, and_true, and_self, if_true,
          if_false, ite_true, ite_false, if_pos, if_neg, not_false_iff]
        rw [show (224 + c.toNat / 4096 - 224) * 4096 + (128 + (c.toNat / 64) % 64 - 128) * 64 +
            (128 + c.toNat % 64 - 128) = c.toNat by omega, Char.ofNat_toNat]
      · rw [show utf8Bytes c =
            [240 + c.toNat / 262144, 128 + (c.toNat / 4096) % 64,
             128 + (c.toNat / 64) % 64, 128 + c.toNat % 64] by
          simp [utf8Bytes, h1, h2, h3], List.cons_append, List.cons_append,
          List.cons_append, List.cons_append, List.nil_append]
        have ha : ¬ 240 + c.toNat / 262144 < 128 := by omega
        have hb : ¬ 240 + c.toNat / 262144 < 224 := by omega
        have hb2 : ¬ 240 + c.toNat / 262144 < 240 := by omega
        have hc : (128 ≤ 128 + (c.toNat / 4096) % 64 ∧ 128 + (c.toNat / 4096) % 64 < 192) ∧
            (128 ≤ 128 + (c.toNat / 64) % 64 ∧ 128 + (c.toNat / 64) % 64 < 192) ∧
            128 ≤ 128 + c.toNat % 64 ∧ 128 + c.toNat % 64 < 192 := by omega
        simp only [utf8DecodeChar, ha, hb, hb2, hc, true_and, and_true, and_self, if_true,
          if_false, ite_true, ite_false, if_pos, if_neg, not_false_iff]
        rw [show (240 + c.toNat / 262144 - 240) * 262144 +
            (128 + (c.toNat / 4096) % 64 - 128) * 4096 +
            (128 + (c.toNat / 64) % 64 - 128) * 64 + (128 + c.toNat % 64 - 128) = c.toNat by
          omega, Char.ofNat_toNat]

theorem utf8Bytes_ne_nil (c : Char) : utf8Bytes c ≠ [] := by
  simp only [utf8Bytes]
  split_ifs <;> simp

theorem utf8DecodeLoop_flatMap (cs : List Char) :
    ∀ fuel : Nat, cs.length ≤ fuel →
      utf8DecodeLoop fuel (cs.flatMap utf8Bytes) = some cs := by
  induction cs with
  | nil => intro fuel _; cases fuel <;> rfl
  | cons c cs ih =>
    intro fuel hf
    cases fuel with
    | zero => simp at hf
    | succ f =>
      obtain ⟨b, bs, hb⟩ := List.exists_cons_of_ne_nil (utf8Bytes_ne_nil c)
      rw [List.flatMap_cons, hb, List.cons_append]
      show (match utf8DecodeChar (b :: (bs ++ cs.flatMap utf8Bytes)) with
            | none => none
            | some (c, rest2) => (utf8DecodeLoop f rest2).map (fun cs => c :: cs)) = _
      rw [← List.cons_append, ← hb, utf8DecodeChar_utf8Bytes]
      show (utf8DecodeLoop f (cs.flatMap utf8Bytes)).map (fun l => c :: l) = _
      rw [ih f (by simp only [List.length_cons] at hf; omega)]
      rfl

theorem length_le_flatMap_utf8Bytes (cs : List Char) :
    cs.length ≤ (cs.flatMap utf8Bytes).length := by
  induction cs with
  | nil => simp
  | cons c cs ih =>
    rw [List.flatMap_cons, List.length_append, List.length_cons]
    have : 0 < (utf8Bytes c).length := List.length_pos.mpr (utf8Bytes_ne_nil c)
    omega

theorem utf8Decode_flatMap (cs : List Char) :
    utf8Decode (cs.flatMap utf8Bytes) = some cs :=
  utf8DecodeLoop_flatMap cs _ (length_le_flatMap_utf8Bytes cs)

theorem utf8Bytes_lt (c : Char) : ∀ b ∈ utf8Bytes c, b < 256 := by
  have hlt : c.toNat < 1114112 := char_toNat_lt c
  intro b hb
  simp only [utf8Bytes] at hb
  split_ifs at hb <;>
    simp only [List.mem_cons, List.mem_singleton, List.not_mem_nil, or_false] at hb <;>
    omega

theorem hexVal_hexDigitChar : ∀ v : Nat, v < 16 → hexVal (hexDigitChar v) = some v := by
  decide

theorem percentDecode_cons_plain (c : Char) (cs : List Char) (h : c.toNat ≠ 37) :
    percentDecode (c :: cs) = (percentDecode cs).map (fun bs => c.toNat :: bs) := by
  conv_lhs => rw [percentDecode.eq_def]
  simp only [h, if_true, if_false, ite_true, ite_false, if_pos, if_neg, not_false_iff]

theorem percentDecode_cons_pct (h1 h2 : Char) (v1 v2 : Nat) (cs : List Char)
    (hv1 : hexVal h1 = some v1) (hv2 : hexVal h2 = some v2) :
    percentDecode (Char.ofNat 37 :: h1 :: h2 :: cs) =
      (percentDecode cs).map (fun bs => (16 * v1 + v2) :: bs) := by
  have ht : (Char.ofNat 37).toNat = 37 := toNat_ofNat_valid 37 (by omega)
  conv_lhs => rw [percentDecode.eq_def]
  simp only [ht, hv1, hv2, if_true, ite_true, if_pos]

theorem percentDecode_encodeByte (b : Nat) (hb : b < 256) (cs : List Char) :
    percentDecode (percentEncodeByte b ++ cs) = (percentDecode cs).map (fun bs => b :: bs) := by
  by_cases hu : isUnreservedByte b
  · have hfacts : b < 128 ∧ b ≠ 37 := by
      simp only [isUnreservedByte, Bool.or_eq_true, Bool.and_eq_true, decide_eq_true_eq,
        beq_iff_eq] at hu
      omega
    have ht : (Char.ofNat b).toNat = b := toNat_ofNat_valid b (by omega)
    rw [show percentEncodeByte b = [Char.ofNat b] by simp [percentEncodeByte, hu],
      List.cons_append, List.nil_append,
      percentDecode_cons_plain _ _ (by rw [ht]; exact hfacts.2), ht]
  · rw [show percentEncodeByte b =
        [Char.ofNat 37, hexDigitChar (b / 16), hexDigitChar (b % 16)] by
      simp [percentEncodeByte, hu]]
    rw [List.cons_append, List.cons_append, List.cons_append, List.nil_append,
      percentDecode_cons_pct _ _ (b / 16) (b % 16) cs
        (hexVal_hexDigitChar _ (by omega)) (hexVal_hexDigitChar _ (by omega)),
      show 16 * (b / 16) + b % 16 = b by omega]

theorem percentDecode_flatMap (bs : List Nat) (h : ∀ b ∈ bs, b < 256) :
    percentDecode (bs.flatMap percentEncodeByte) = some bs := by
  induction bs with
  | nil => rfl
  | cons b bs ih =>
    rw [List.flatMap_cons, percentDecode_encodeByte b (h b (by simp)),
      ih (fun x hx => h x (by simp [hx]))]
    rfl

theorem utf8Encode_lt (s : String) : ∀ b ∈ utf8Encode s, b < 256 := by
  intro b hb
  rw [utf8Encode, List.mem_flatMap] at hb
  obtain ⟨c, _, hbc⟩ := hb
  exact utf8Bytes_lt c b hbc

theorem decode_encodeURIComponent (s : String) :
    decodeURIComponent (encodeURIComponent s) = some s := by
  show (percentDecode ((utf8Encode s).flatMap percentEncodeByte)).bind _ = _
  rw [percentDecode_flatMap _ (utf8Encode_lt s)]
  show (utf8Decode (s.data.flatMap utf8Bytes)).map _ = _
  rw [utf8Decode_flatMap]
  rfl

/-- C6: for every source text the request body is built by manual percent
encoding, `"input=" ++ encodeURIComponent text`; a literal plus sign is
encoded as `%2B`, distinct from the `%20` encoding of a space, and
decoding the body's value component recovers the original text exactly
(encode/decode round trip). -/
theorem requestBody_encoding_roundtrip (text : String) :
    requestBody text = "input=" ++ encodeURIComponent text
    ∧ decodeURIComponent (encodeURIComponent text) = some text
    ∧ encodeURIComponent "+" = "%2B"
    ∧ encodeURIComponent " " = "%20"
    ∧ encodeURIComponent "+" ≠ encodeURIComponent " " :=
  ⟨rfl, decode_encodeURIComponent text, by decide, by decide, by decide⟩

/-! ## Statistics lemmas -/

/-- C5 evaluation: when the minified output (2 bytes) is larger than the
original (1 byte), `calculateStats` yields `reductionPercent = -100` —
negative, with no clamping at 0, contradicting both the claim and the
`Percentage (0-100)` documentation of the `MinificationStats` interface. -/
theorem calculateStats_negative_growth :
    (calculateStats "a" "ab").reductionPercent = -100
    ∧ (calculateStats "a" "ab").reductionPercent < 0 := by
  have h : (calculateStats "a" "ab").reductionPercent = -100 := by
    show jsRound ((((utf8Len "a" : ℚ) - (utf8Len "ab" : ℚ)) / (utf8Len "a" : ℚ)) * 100) = -100
    rw [show utf8Len "a" = 1 from rfl, show utf8Len "ab" = 2 from rfl]
    show ⌊(((1 : ℚ) - 2) / 1) * 100 + 1 / 2⌋ = -100
    norm_num
  exact ⟨h, by rw [h]; norm_num⟩

/-! ## Minification client lemmas -/

theorem apiConfigFor_cases (fileType : String) (cfg : ApiConfig)
    (h : apiConfigFor fileType = some cfg) :
    (fileType = "css" ∧ cfg = cssApi) ∨ (fileType = "javascript" ∧ cfg = javascriptApi) := by
  unfold apiConfigFor at h
  split_ifs at h with h1 h2
  · injection h with h2
    exact Or.inl ⟨h1, h2.symm⟩
  · injection h with h3
    exact Or.inr ⟨h2, h3.symm⟩

/-- C2: a text whose UTF-8 byte length exceeds the 5 MiB ceiling makes the
client fail with the content-too-large notification (the size reported in
MB via `toFixed(2)`), the returned result is null, and no network request
is attempted. -/
theorem getMinifiedText_content_too_large
    (text fileType : String) (cfg : ApiConfig) (fe : FetchEnv)
    (hcfg : apiConfigFor fileType = some cfg)
    (hsize : utf8Len text > MAX_FILE_SIZE_BYTES) :
    (getMinifiedText text fileType fe).result = none
    ∧ (getMinifiedText text fileType fe).events =
        [Event.notifyError (l10nT "minificationService.fileSize.tooLarge"
          [jsToFixed2 ((utf8Len text : ℚ) / (1024 * 1024))])]
    ∧ countApiRequests (getMinifiedText text fileType fe).events = 0 := by
  have hg : getMinifiedText text fileType fe =
      { result := none
        events := [Event.notifyError (l10nT "minificationService.fileSize.tooLarge"
          [jsToFixed2 ((utf8Len text : ℚ) / (1024 * 1024))])] } := by
    unfold getMinifiedText
    rw [hcfg]
    dsimp only
    rw [if_pos hsize]
  rw [hg]
  exact ⟨rfl, rfl, rfl⟩

/-- C3: when the 5000 ms timer wins the race, the invocation returns null
and the user is shown exactly the timeout-specific message. -/
theorem getMinifiedText_timeout_error
    (text fileType : String) (cfg : ApiConfig) (fe : FetchEnv)
    (hcfg : apiConfigFor fileType = some cfg)
    (hsize : utf8Len text ≤ MAX_FILE_SIZE_BYTES)
    (ht : fe.timerWins = true) :
    (getMinifiedText text fileType fe).result = none
    ∧ (getMinifiedText text fileType fe).events =
        [Event.apiRequest cfg.url (requestBody text),
         Event.notifyError (l10nT "minificationService.error.timeout" [cfg.name])] := by
  have hns : ¬ utf8Len text > MAX_FILE_SIZE_BYTES := by omega
  rcases apiConfigFor_cases fileType cfg hcfg with ⟨hft, hc⟩ | ⟨hft, hc⟩ <;> subst hft <;> subst hc
  · have hg : getMinifiedText text "css" fe =
        { result := none
          events := [Event.apiRequest cssApi.url (requestBody text),
            Event.notifyError (l10nT "minificationService.error.timeout" [cssApi.name])] } := by
      unfold getMinifiedText
      rw [show apiConfigFor "css" = some cssApi from rfl]
      dsimp only
      rw [if_neg hns, if_pos ht]
      rw [show catchUserMessage cssApi "css"
          (cssApi.name ++ " API request timed out after " ++ toString API_TIMEOUT_MS ++ "ms") =
          l10nT "minificationService.error.timeout" [cssApi.name] by decide]
    rw [hg]
    exact ⟨rfl, rfl⟩
  · have hg : getMinifiedText text "javascript" fe =
        { result := none
          events := [Event.apiRequest javascriptApi.url (requestBody text),
            Event.notifyError
              (l10nT "minificationService.error.timeout" [javascriptApi.name])] } := by
      unfold getMinifiedText
      rw [show apiConfigFor "javascript" = some javascriptApi from rfl]
      dsimp only
      rw [if_neg hns, if_pos ht]
      rw [show catchUserMessage javascriptApi "javascript"
          (javascriptApi.name ++ " API request timed out after " ++
            toString API_TIMEOUT_MS ++ "ms") =
          l10nT "minificationService.error.timeout" [javascriptApi.name] by decide]
    rw [hg]
    exact ⟨rfl, rfl⟩

/-- C4: on a non-success HTTP response the invocation fails (null result)
and shows one error message built from `em`, where `em` is the JSON error
body's first detail when that parse succeeds, and otherwise (parse
failure) comes from the status table 400/405/406/413/422/429 with a
generic api-error fallback carrying status and statusText. -/
theorem getMinifiedText_http_error_mapping
    (text fileType : String) (cfg : ApiConfig) (status : Nat) (statusText : String)
    (jsonD : Option (Option String)) (body : String) (fe : FetchEnv)
    (hcfg : apiConfigFor fileType = some cfg)
    (hsize : utf8Len text ≤ MAX_FILE_SIZE_BYTES)
    (hfe : fe = { timerWins := false, outcome := .response status statusText jsonD body })
    (hnok : statusOk status = false) :
    (getMinifiedText text fileType fe).result = none
    ∧ (∀ d, jsonD = some (some d) →
        (getMinifiedText text fileType fe).events =
          [Event.apiRequest cfg.url (requestBody text),
           Event.notifyError (catchUserMessage cfg fileType d)])
    ∧ (jsonD = none →
        (getMinifiedText text fileType fe).events =
          [Event.apiRequest cfg.url (requestBody text),
           Event.notifyError (catchUserMessage cfg fileType
             (statusTableMessage cfg fileType status statusText))])
    ∧ (status = 400 → statusTableMessage cfg fileType status statusText =
        l10nT "minificationService.error.missingInput" [])
    ∧ (status = 405 → statusTableMessage cfg fileType status statusText =
        l10nT "minificationService.error.invalidMethod" [])
    ∧ (status = 406 → statusTableMessage cfg fileType status statusText =
        l10nT "minificationService.error.invalidContentType" [])
    ∧ (status = 413 → statusTableMessage cfg fileType status statusText =
        l10nT "minificationService.error.fileTooLarge" [])
    ∧ (status = 422 → statusTableMessage cfg fileType status statusText =
        l10nT "minificationService.error.invalidSyntax" [fileType])
    ∧ (status = 429 → statusTableMessage cfg fileType status statusText =
        l10nT "minificationService.error.rateLimitExceeded" [])
    ∧ (status ≠ 400 → status ≠ 405 → status ≠ 406 → status ≠ 413 → status ≠ 422 →
        status ≠ 429 →
        statusTableMessage cfg fileType status statusText =
          l10nT "minificationService.error.apiError"
            [cfg.name, toString status, statusText]) := by
  have hns : ¬ utf8Len text > MAX_FILE_SIZE_BYTES := by omega
  have hnok2 : ¬ statusOk status = true := by rw [hnok]; exact Bool.false_ne_true
  subst hfe
  have hg : getMinifiedText text fileType
      { timerWins := false, outcome := .response status statusText jsonD body } =
      { result := none
        events := [Event.apiRequest cfg.url (requestBody text),
          Event.notifyError (catchUserMessage cfg fileType
            (match jsonD with
             | some (some d) => d
             | some none => ""
             | none => statusTableMessage cfg fileType status statusText))] } := by
    unfold getMinifiedText
    rw [hcfg]
    dsimp only
    rw [if_neg hns, if_neg (by exact Bool.false_ne_true), if_neg hnok2]
  rw [hg]
  refine ⟨rfl, ?_, ?_, ?_, ?_, ?_, ?_, ?_, ?_, ?_⟩
  · intro d hd; subst hd; rfl
  · intro hd; subst hd; rfl
  · intro h; subst h; rfl
  · intro h; subst h; rfl
  · intro h; subst h; rfl
  · intro h; subst h; rfl
  · intro h; subst h; rfl
  · intro h; subst h; rfl
  · intro h400 h405 h406 h413 h422 h429
    simp [statusTableMessage, h400, h405, h406, h413, h422, h429]

/-- Witness for the content-too-large theorem at a concrete 5 MiB + 1 input. -/
theorem flatMap_replicate_length (n : Nat) :
    ((List.replicate n 'a').flatMap utf8Bytes).length = n := by
  induction n with
  | zero => rfl
  | succ n ih =>
    rw [List.replicate_succ, List.flatMap_cons, List.length_append, ih,
      show (utf8Bytes 'a').length = 1 from rfl]
    omega

theorem utf8Len_bigText : utf8Len bigText = 5242881 :=
  flatMap_replicate_length 5242881

theorem getMinifiedText_content_too_large_witness :
    utf8Len bigText > MAX_FILE_SIZE_BYTES
    ∧ (getMinifiedText bigText "css" feIdle).result = none
    ∧ countApiRequests (getMinifiedText bigText "css" feIdle).events = 0 := by
  have hs : utf8Len bigText > MAX_FILE_SIZE_BYTES := by
    rw [utf8Len_bigText]; decide
  have h := getMinifiedText_content_too_large bigText "css" cssApi feIdle rfl hs
  exact ⟨hs, h.1, h.2.2⟩

theorem getMinifiedText_timeout_error_witness :
    (getMinifiedText "x" "css" feTimer).result = none
    ∧ (getMinifiedText "x" "css" feTimer).events =
        [Event.apiRequest cssApi.url (requestBody "x"),
         Event.notifyError (l10nT "minificationService.error.timeout" [cssApi.name])] :=
  getMinifiedText_timeout_error "x" "css" cssApi feTimer rfl (by decide) rfl

theorem getMinifiedText_http_error_mapping_witness :
    (getMinifiedText "x" "css" fe422).result = none
    ∧ statusTableMessage cssApi "css" 422 "Unprocessable Entity" =
        l10nT "minificationService.error.invalidSyntax" ["css"]
    ∧ (getMinifiedText "x" "css" fe422).events =
        [Event.apiRequest cssApi.url (requestBody "x"),
         Event.notifyError (catchUserMessage cssApi "css"
           (statusTableMessage cssApi "css" 422 "Unprocessable Entity"))] := by
  have h := getMinifiedText_http_error_mapping "x" "css" cssApi 422 "Unprocessable Entity"
    none "" fe422 rfl (by decide) rfl rfl
  exact ⟨h.1, h.2.2.2.2.2.2.2.1 rfl, h.2.2.1 rfl⟩

/-! ## Filename transformation lemmas -/

theorem dropSuffix_append (stem suf : List Char) :
    dropSuffix (stem ++ suf) suf = some stem := by
  have h1 : suf.length ≤ (stem ++ suf).length := by rw [List.length_append]; omega
  have h2 : (stem ++ suf).length - suf.length = stem.length := by
    rw [List.length_append]; omega
  unfold dropSuffix
  rw [if_pos ⟨h1, by rw [h2]; exact List.drop_left stem suf⟩, h2, List.take_left]

theorem dropSuffix_eq_some (l suf r : List Char) (h : dropSuffix l suf = some r) :
    l = r ++ suf := by
  unfold dropSuffix at h
  split_ifs at h with hc
  · injection h with h2
    subst h2
    conv_lhs => rw [← List.take_append_drop (l.length - suf.length) l]
    rw [hc.2]

theorem ne_append_js_css (x r : List Char) : x ++ ".js".data ≠ r ++ ".css".data := by
  intro h
  have h1 : (x ++ ".js".data).reverse.get? 1 = some 'j' := by
    rw [List.reverse_append, List.get?_append (by decide)]
    decide
  have h2 : (r ++ ".css".data).reverse.get? 1 = some 's' := by
    rw [List.reverse_append, List.get?_append (by decide)]
    decide
  rw [h] at h1
  exact absurd (h1.symm.trans h2) (by decide)

theorem dropSuffix_js_css_none (x : List Char) :
    dropSuffix (x ++ ".js".data) ".css".data = none := by
  cases h : dropSuffix (x ++ ".js".data) ".css".data with
  | none => rfl
  | some r => exact absurd (dropSuffix_eq_some _ _ _ h) (ne_append_js_css x r)

theorem createMinifiedFileName_css (stem p : String) :
    createMinifiedFileName (stem ++ ".css") p = stem ++ p ++ ".css" := by
  unfold createMinifiedFileName
  rw [String.data_append, dropSuffix_append]
  apply String.ext
  simp [String.data_append]

theorem createMinifiedFileName_js (stem p : String) :
    createMinifiedFileName (stem ++ ".js") p = stem ++ p ++ ".js" := by
  unfold createMinifiedFileName
  rw [String.data_append, dropSuffix_js_css_none, dropSuffix_append]
  apply String.ext
  simp [String.data_append]

theorem append_ne_of_ne_empty (stem p ext : String) (hp : p ≠ "") :
    stem ++ p ++ ext ≠ stem ++ ext := by
  intro h
  have hlen := congrArg String.length h
  rw [String.length_append, String.length_append, String.length_append] at hlen
  have hp0 : p.data ≠ [] := fun hd => hp (String.ext hd)
  have : 0 < p.length := List.length_pos.mpr hp0
  omega

/-! ## Client success lemmas -/

theorem getMinifiedText_ok (text fileType : String) (cfg : ApiConfig) (fe : FetchEnv)
    (status : Nat) (st : String) (jd : Option (Option String)) (body : String)
    (hcfg : apiConfigFor fileType = some cfg)
    (hsize : utf8Len text ≤ MAX_FILE_SIZE_BYTES)
    (hfe : fe = { timerWins := false, outcome := .response status st jd body })
    (hok : statusOk status = true) :
    getMinifiedText text fileType fe =
      { result := some body, events := [Event.apiRequest cfg.url (requestBody text)] } := by
  subst hfe
  unfold getMinifiedText
  rw [hcfg]
  dsimp only
  rw [if_neg (by omega), if_neg (by exact Bool.false_ne_true), if_pos hok]

theorem getMinifiedResult_ok (text fileType : String) (cfg : ApiConfig) (fe : FetchEnv)
    (status : Nat) (st : String) (jd : Option (Option String)) (body : String)
    (hcfg : apiConfigFor fileType = some cfg)
    (hsize : utf8Len text ≤ MAX_FILE_SIZE_BYTES)
    (hfe : fe = { timerWins := false, outcome := .response status st jd body })
    (hok : statusOk status = true) :
    getMinifiedResult text fileType fe =
      { result := some { minifiedText := body, stats := calculateStats text body }
        events := [Event.apiRequest cfg.url (requestBody text)] } := by
  unfold getMinifiedResult
  rw [getMinifiedText_ok text fileType cfg fe status st jd body hcfg hsize hfe hok]
  rfl

/-- C8: in the new-file branch, for a document whose filename ends in a
supported extension (`.css` or `.js`) and a non-empty prefix, the
minified text is written to the sibling path with the prefix inserted
before that extension, while the original file on disk and the document
buffer stay byte-for-byte unchanged. -/
theorem newFile_branch_writes_sibling
    (w : World) (env : Env) (cfg : Config) (doc : Doc) (api : ApiConfig)
    (stem p m1 ext : String)
    (hext : ext = ".css" ∨ ext = ".js")
    (hname : doc.fileName = stem ++ ext)
    (hp : p ≠ "")
    (hlang : apiConfigFor doc.languageId = some api)
    (htext : w.content doc.uri ≠ "")
    (hsize : utf8Len (w.content doc.uri) ≤ MAX_FILE_SIZE_BYTES)
    (hfetch : env.fetchBehavior (w.content doc.uri) doc.languageId =
      { timerWins := false, outcome := .response 200 "OK" none m1 })
    (hwrite : env.writeOutcome (stem ++ p ++ ext) = Except.ok ()) :
    (processDocument w env cfg doc { saveAsNewFile := true, filePref := p }).world.fs
        (stem ++ p ++ ext) = m1
    ∧ (processDocument w env cfg doc { saveAsNewFile := true, filePref := p }).world.fs
        doc.fileName = w.fs doc.fileName
    ∧ (processDocument w env cfg doc { saveAsNewFile := true, filePref := p }).world.content
        doc.uri = w.content doc.uri
    ∧ createMinifiedFileName doc.fileName p = stem ++ p ++ ext
    ∧ (processDocument w env cfg doc { saveAsNewFile := true, filePref := p }).exc = none := by
  have hcreate : createMinifiedFileName doc.fileName p = stem ++ p ++ ext := by
    rcases hext with he | he <;> subst he <;> rw [hname]
    · exact createMinifiedFileName_css stem p
    · exact createMinifiedFileName_js stem p
  have hne : doc.fileName ≠ stem ++ p ++ ext := by
    rw [hname]
    exact Ne.symm (append_ne_of_ne_empty stem p ext hp)
  rcases apiConfigFor_cases doc.languageId api hlang with ⟨hl, hc⟩ | ⟨hl, hc⟩
  · rw [hl] at hfetch
    have hrun := getMinifiedResult_ok (w.content doc.uri) "css" cssApi
      (env.fetchBehavior (w.content doc.uri) "css") 200 "OK" none m1 rfl hsize hfetch rfl
    have hpd : processDocument w env cfg doc { saveAsNewFile := true, filePref := p } =
        { exc := none
          world := { w with fs := fun q => if q = stem ++ p ++ ext then m1 else w.fs q }
          events :=
            [Event.apiRequest cssApi.url (requestBody (w.content doc.uri))] ++
              ([Event.fsWrite (stem ++ p ++ ext) m1] ++
                (if cfg.autoOpenNewFile then [Event.docOpen (stem ++ p ++ ext)] else []) ++
                [Event.notifyInfo (l10nT (formatSizeReductionMessage cfg
                  (lastPathSegment (stem ++ p ++ ext))
                  (calculateStats (w.content doc.uri) m1) true) [])]) } := by
      unfold processDocument
      rw [hl]
      dsimp only
      rw [if_neg (by simp [isValidFileType]), if_neg htext, hrun]
      dsimp only
      rw [if_pos ⟨rfl, hp⟩, hcreate]
      unfold saveAsNewFile
      rw [hwrite]
    rw [hpd]
    refine ⟨by simp, ?_, rfl, hcreate, rfl⟩
    show (if doc.fileName = stem ++ p ++ ext then m1 else w.fs doc.fileName) =
      w.fs doc.fileName
    rw [if_neg hne]
  · rw [hl] at hfetch
    have hrun := getMinifiedResult_ok (w.content doc.uri) "javascript" javascriptApi
      (env.fetchBehavior (w.content doc.uri) "javascript") 200 "OK" none m1 rfl hsize hfetch rfl
    have hpd : processDocument w env cfg doc { saveAsNewFile := true, filePref := p } =
        { exc := none
          world := { w with fs := fun q => if q = stem ++ p ++ ext then m1 else w.fs q }
          events :=
            [Event.apiRequest javascriptApi.url (requestBody (w.content doc.uri))] ++
              ([Event.fsWrite (stem ++ p ++ ext) m1] ++
                (if cfg.autoOpenNewFile then [Event.docOpen (stem ++ p ++ ext)] else []) ++
                [Event.notifyInfo (l10nT (formatSizeReductionMessage cfg
                  (lastPathSegment (stem ++ p ++ ext))
                  (calculateStats (w.content doc.uri) m1) true) [])]) } := by
      unfold processDocument
      rw [hl]
      dsimp only
      rw [if_neg (by simp [isValidFileType]), if_neg htext, hrun]
      dsimp only
      rw [if_pos ⟨rfl, hp⟩, hcreate]
      unfold saveAsNewFile
      rw [hwrite]
    rw [hpd]
    refine ⟨by simp, ?_, rfl, hcreate, rfl⟩
    show (if doc.fileName = stem ++ p ++ ext then m1 else w.fs doc.fileName) =
      w.fs doc.fileName
    rw [if_neg hne]

/-- C8 witness at concrete documents: `style.css` (css) and `app.js`
(javascript), both with prefix `.min`. -/
theorem newFile_branch_writes_sibling_witness :
    (processDocument w8 env9 cfgD doc8 { saveAsNewFile := true, filePref := ".min" }).world.fs
        ("style" ++ ".min" ++ ".css") = "m9"
    ∧ (processDocument w8 env9 cfgD doc8
        { saveAsNewFile := true, filePref := ".min" }).world.fs "style.css" = "orig"
    ∧ createMinifiedFileName "style.css" ".min" = "style" ++ ".min" ++ ".css"
    ∧ (processDocument w8j env9 cfgD doc8j
        { saveAsNewFile := true, filePref := ".min" }).world.fs
        ("app" ++ ".min" ++ ".js") = "m9"
    ∧ (processDocument w8j env9 cfgD doc8j
        { saveAsNewFile := true, filePref := ".min" }).world.fs "app.js" = "orig"
    ∧ createMinifiedFileName "app.js" ".min" = "app" ++ ".min" ++ ".js" := by
  have h := newFile_branch_writes_sibling w8 env9 cfgD doc8 cssApi "style" ".min" "m9" ".css"
    (Or.inl rfl) (by decide) (by decide) rfl (by decide) (by decide) rfl rfl
  have hj := newFile_branch_writes_sibling w8j env9 cfgD doc8j javascriptApi
    "app" ".min" "m9" ".js"
    (Or.inr rfl) (by decide) (by decide) rfl (by decide) (by decide) rfl rfl
  exact ⟨h.1, h.2.1, h.2.2.2.1, hj.1, hj.2.1, hj.2.2.2.1⟩

/-- C9 counterexample: a document whose language is css but whose
filename `style.txt` has no supported extension passes the validator,
reaches the filename transformation, and the no-match branch returns the
name unchanged, so the new-file write lands on the original path. -/
theorem extensionless_reaches_transform_cex :
    isValidFileType doc9.languageId = true
    ∧ createMinifiedFileName doc9.fileName ".min" = doc9.fileName
    ∧ (processDocument w9 env9 cfgD doc9 { saveAsNewFile := true, filePref := ".min" }).world.fs
        "style.txt" = "m9"
    ∧ w9.fs "style.txt" = "orig" :=
  ⟨rfl, rfl, rfl, rfl⟩

/-- C9 amended: for filenames that do end in a supported extension the
no-match branch is unreachable — the transformation inserts the prefix
before the extension and (for a non-empty prefix) never returns the name
unchanged. -/
theorem createMinifiedFileName_supported (stem p : String) (hp : p ≠ "") :
    createMinifiedFileName (stem ++ ".css") p = stem ++ p ++ ".css"
    ∧ createMinifiedFileName (stem ++ ".js") p = stem ++ p ++ ".js"
    ∧ createMinifiedFileName (stem ++ ".css") p ≠ stem ++ ".css"
    ∧ createMinifiedFileName (stem ++ ".js") p ≠ stem ++ ".js" := by
  refine ⟨createMinifiedFileName_css stem p, createMinifiedFileName_js stem p, ?_, ?_⟩
  · rw [createMinifiedFileName_css]
    exact append_ne_of_ne_empty stem p ".css" hp
  · rw [createMinifiedFileName_js]
    exact append_ne_of_ne_empty stem p ".js" hp

/-- C9 amended witness at concrete names. -/
theorem createMinifiedFileName_supported_witness :
    createMinifiedFileName ("style" ++ ".css") ".min" = "style" ++ ".min" ++ ".css"
    ∧ createMinifiedFileName ("app" ++ ".js") ".min" = "app" ++ ".min" ++ ".js" := by
  have h := createMinifiedFileName_supported "style" ".min" (by decide)
  have h2 := createMinifiedFileName_supported "app" ".min" (by decide)
  exact ⟨h.1, h2.2.1⟩

/-! ## Recursion-guard lemmas -/

theorem filter_guard_getMinifiedText (text ft : String) (fe : FetchEnv) :
    (getMinifiedText text ft fe).events.filter isGuardEvent = [] := by
  obtain ⟨tw, oc⟩ := fe
  cases h : apiConfigFor ft with
  | none =>
    unfold getMinifiedText
    rw [h]
    rfl
  | some cfg =>
    unfold getMinifiedText
    rw [h]
    dsimp only
    split_ifs with h1 h2
    · rfl
    · rfl
    · cases oc with
      | reject m => rfl
      | response st stt jd b =>
        dsimp only
        split_ifs with hok
        · rfl
        · rfl

theorem filter_guard_getMinifiedResult (text ft : String) (fe : FetchEnv) :
    (getMinifiedResult text ft fe).events.filter isGuardEvent = [] :=
  filter_guard_getMinifiedText text ft fe

theorem filter_guard_replace (cfg : Config) (env : Env) (w : World) (doc : Doc)
    (mt : String) (stats : MinificationStats) :
    (replaceDocumentContent cfg env w doc mt stats).events.filter isGuardEvent = [] := by
  unfold replaceDocumentContent
  cases h : env.writeOutcome doc.uri with
  | error e => rfl
  | ok u => rfl

/-- C1: the save-recursion guard discipline.  A save event for a document
already in the guard set short-circuits: the state is untouched, no events
are produced, in particular zero network calls.  Otherwise, in the
save-triggered in-place branch, the guard entry is added as the first
action of the branch and removed as its last action — for every outcome of
the minification call and of the (possibly throwing) write-back — and the
guard set afterwards equals the one before. -/
theorem onSaveMinify_guard_discipline
    (g : List String) (w : World) (env : Env) (cfg : Config) (doc : Doc) :
    (doc.uri ∈ g →
      onSaveMinify g w env cfg doc = { exc := none, guard := g, world := w, events := [] }
      ∧ countApiRequests (onSaveMinify g w env cfg doc).events = 0)
    ∧ (doc.uri ∉ g →
        (doc.languageId = "css" ∨ doc.languageId = "javascript") →
        w.content doc.uri ≠ "" →
        cfg.minifyInNewFile = false →
        (onSaveMinify g w env cfg doc).events.head? = some (Event.guardAdd doc.uri)
        ∧ (onSaveMinify g w env cfg doc).events.getLast? = some (Event.guardRemove doc.uri)
        ∧ (onSaveMinify g w env cfg doc).events.filter isGuardEvent =
            [Event.guardAdd doc.uri, Event.guardRemove doc.uri]
        ∧ (onSaveMinify g w env cfg doc).guard = g) := by
  constructor
  · intro hmem
    have he : onSaveMinify g w env cfg doc =
        { exc := none, guard := g, world := w, events := [] } := by
      unfold onSaveMinify
      rw [if_pos hmem]
    exact ⟨he, by rw [he]; rfl⟩
  · intro hmem hlang htext hnew
    have hnewb : ¬ cfg.minifyInNewFile = true := by rw [hnew]; exact Bool.false_ne_true
    have he : onSaveMinify g w env cfg doc =
        { exc := (match (getMinifiedResult (w.content doc.uri) doc.languageId
              (env.fetchBehavior (w.content doc.uri) doc.languageId)).result with
            | none => ({ exc := none, world := w, events := [] } : PDResult)
            | some res => replaceDocumentContent cfg env w doc res.minifiedText res.stats).exc
          guard := (g.insert doc.uri).erase doc.uri
          world := (match (getMinifiedResult (w.content doc.uri) doc.languageId
              (env.fetchBehavior (w.content doc.uri) doc.languageId)).result with
            | none => ({ exc := none, world := w, events := [] } : PDResult)
            | some res => replaceDocumentContent cfg env w doc res.minifiedText res.stats).world
          events := Event.guardAdd doc.uri ::
            ((getMinifiedResult (w.content doc.uri) doc.languageId
                (env.fetchBehavior (w.content doc.uri) doc.languageId)).events ++
              (match (getMinifiedResult (w.content doc.uri) doc.languageId
                  (env.fetchBehavior (w.content doc.uri) doc.languageId)).result with
                | none => ({ exc := none, world := w, events := [] } : PDResult)
                | some res =>
                  replaceDocumentContent cfg env w doc res.minifiedText res.stats).events) ++
            [Event.guardRemove doc.uri] } := by
      unfold onSaveMinify
      rw [if_neg hmem, if_pos hlang, if_neg htext, if_neg hnewb]
    rw [he]
    refine ⟨rfl, ?_, ?_, ?_⟩
    · show (Event.guardAdd doc.uri :: (_ ++ [Event.guardRemove doc.uri])).getLast? = _
      rw [← List.cons_append, List.getLast?_concat]
    · rw [show ∀ x : Event, ∀ l : List Event, x :: l = [x] ++ l from fun _ _ => rfl,
        List.filter_append, List.filter_append, List.filter_append]
      rw [filter_guard_getMinifiedResult]
      have hmid : (match (getMinifiedResult (w.content doc.uri) doc.languageId
          (env.fetchBehavior (w.content doc.uri) doc.languageId)).result with
        | none => ({ exc := none, world := w, events := [] } : PDResult)
        | some res =>
          replaceDocumentContent cfg env w doc res.minifiedText res.stats).events.filter
            isGuardEvent = [] := by
        generalize (getMinifiedResult (w.content doc.uri) doc.languageId
            (env.fetchBehavior (w.content doc.uri) doc.languageId)).result = r0
        cases r0 with
        | none => rfl
        | some res => exact filter_guard_replace cfg env w doc res.minifiedText res.stats
      rw [hmid]
      rfl
    · show (g.insert doc.uri).erase doc.uri = g
      simp [List.insert, hmem]

/-- C1 witness: a concrete in-flight uri short-circuits with no events,
and a fresh save produces the guard-bracketed trace and restores the
guard set. -/
theorem onSaveMinify_guard_discipline_witness :
    (onSaveMinify ["u1"] w1 env1 cfgD doc1).events = []
    ∧ countApiRequests (onSaveMinify ["u1"] w1 env1 cfgD doc1).events = 0
    ∧ (onSaveMinify [] w1 env1 cfgD doc1).events.head? = some (Event.guardAdd "u1")
    ∧ (onSaveMinify [] w1 env1 cfgD doc1).events.getLast? = some (Event.guardRemove "u1")
    ∧ (onSaveMinify [] w1 env1 cfgD doc1).guard = [] := by
  have ha := (onSaveMinify_guard_discipline ["u1"] w1 env1 cfgD doc1).1 (by decide)
  have hb := (onSaveMinify_guard_discipline [] w1 env1 cfgD doc1).2 (by simp)
    (Or.inl rfl) (by decide) rfl
  exact ⟨by rw [ha.1], ha.2, hb.1, hb.2.1, hb.2.2.2⟩

/-! ## Error containment lemmas -/

theorem processDocument_inplace_spec
    (w : World) (env : Env) (cfg : Config) (doc : Doc) (opts : MinifyOptions) (m1 : String)
    (hft : doc.languageId = "css")
    (htext : w.content doc.uri ≠ "")
    (hsize : utf8Len (w.content doc.uri) ≤ MAX_FILE_SIZE_BYTES)
    (hfetch : env.fetchBehavior (w.content doc.uri) "css" =
      { timerWins := false, outcome := .response 200 "OK" none m1 })
    (hnf : ¬ (opts.saveAsNewFile = true ∧ opts.filePref ≠ ""))
    (hwrite : env.writeOutcome doc.uri = Except.ok ()) :
    (processDocument w env cfg doc opts).exc = none
    ∧ (processDocument w env cfg doc opts).world.content =
        (fun u => if u = doc.uri then m1 else w.content u)
    ∧ (processDocument w env cfg doc opts).world.activeDoc = w.activeDoc
    ∧ (processDocument w env cfg doc opts).events =
        [Event.apiRequest cssApi.url (requestBody (w.content doc.uri)),
         Event.docReplace doc.uri m1, Event.docSave doc.uri,
         Event.notifyInfo (l10nT "fileService.inPlace.success"
           [formatSizeReductionMessage cfg (lastPathSegment doc.fileName)
             (calculateStats (w.content doc.uri) m1) false])] ++
        (if opts.debugSource = some "manual" then [Event.docSave doc.uri] else []) := by
  have hrun := getMinifiedResult_ok (w.content doc.uri) "css" cssApi
    (env.fetchBehavior (w.content doc.uri) "css") 200 "OK" none m1 rfl hsize hfetch rfl
  have hrep : replaceDocumentContent cfg env w doc m1 (calculateStats (w.content doc.uri) m1) =
      { exc := none
        world :=
          { w with
            content := fun u => if u = doc.uri then m1 else w.content u
            fs := fun p => if p = doc.fileName then m1 else w.fs p }
        events := [Event.docReplace doc.uri m1, Event.docSave doc.uri,
          Event.notifyInfo (l10nT "fileService.inPlace.success"
            [formatSizeReductionMessage cfg (lastPathSegment doc.fileName)
              (calculateStats (w.content doc.uri) m1) false])] } := by
    unfold replaceDocumentContent
    rw [hwrite]
  by_cases hd : opts.debugSource = some "manual"
  · have hfull : processDocument w env cfg doc opts =
        { exc := none
          world := (saveDocumentSilently
            { activeDoc := w.activeDoc
              content := fun u => if u = doc.uri then m1 else w.content u
              fs := fun p => if p = doc.fileName then m1 else w.fs p } doc).world
          events :=
            [Event.apiRequest cssApi.url (requestBody (w.content doc.uri))] ++
              ([Event.docReplace doc.uri m1, Event.docSave doc.uri,
                Event.notifyInfo (l10nT "fileService.inPlace.success"
                  [formatSizeReductionMessage cfg (lastPathSegment doc.fileName)
                    (calculateStats (w.content doc.uri) m1) false])] ++
                [Event.docSave doc.uri]) } := by
      unfold processDocument
      rw [hft]
      dsimp only
      rw [if_neg (by simp [isValidFileType]), if_neg htext, hrun]
      dsimp only
      rw [if_neg hnf, hrep]
      dsimp only
      rw [if_pos hd]
      rfl
    rw [hfull]
    refine ⟨rfl, rfl, rfl, ?_⟩
    rw [if_pos hd]
    rfl
  · have hfull : processDocument w env cfg doc opts =
        { exc := none
          world :=
            { activeDoc := w.activeDoc
              content := fun u => if u = doc.uri then m1 else w.content u
              fs := fun p => if p = doc.fileName then m1 else w.fs p }
          events :=
            [Event.apiRequest cssApi.url (requestBody (w.content doc.uri))] ++
              [Event.docReplace doc.uri m1, Event.docSave doc.uri,
               Event.notifyInfo (l10nT "fileService.inPlace.success"
                 [formatSizeReductionMessage cfg (lastPathSegment doc.fileName)
                   (calculateStats (w.content doc.uri) m1) false])] } := by
      unfold processDocument
      rw [hft]
      dsimp only
      rw [if_neg (by simp [isValidFileType]), if_neg htext, hrun]
      dsimp only
      rw [if_neg hnf, hrep]
      dsimp only
      rw [if_neg hd]
    rw [hfull]
    refine ⟨rfl, rfl, rfl, ?_⟩
    rw [if_neg hd]
    rfl

theorem processDocument_newfile_spec
    (w : World) (env : Env) (cfg : Config) (doc : Doc) (opts : MinifyOptions) (m1 : String)
    (hft : doc.languageId = "css")
    (htext : w.content doc.uri ≠ "")
    (hsize : utf8Len (w.content doc.uri) ≤ MAX_FILE_SIZE_BYTES)
    (hfetch : env.fetchBehavior (w.content doc.uri) "css" =
      { timerWins := false, outcome := .response 200 "OK" none m1 })
    (hnf : opts.saveAsNewFile = true ∧ opts.filePref ≠ "")
    (hwrite : env.writeOutcome (createMinifiedFileName doc.fileName opts.filePref) =
      Except.ok ()) :
    (processDocument w env cfg doc opts).exc = none
    ∧ (processDocument w env cfg doc opts).world.content = w.content
    ∧ (processDocument w env cfg doc opts).world.activeDoc = w.activeDoc
    ∧ (processDocument w env cfg doc opts).events =
        [Event.apiRequest cssApi.url (requestBody (w.content doc.uri)),
         Event.fsWrite (createMinifiedFileName doc.fileName opts.filePref) m1] ++
        (if cfg.autoOpenNewFile = true then
          [Event.docOpen (createMinifiedFileName doc.fileName opts.filePref)] else []) ++
        [Event.notifyInfo (l10nT (formatSizeReductionMessage cfg
          (lastPathSegment (createMinifiedFileName doc.fileName opts.filePref))
          (calculateStats (w.content doc.uri) m1) true) [])] := by
  have hrun := getMinifiedResult_ok (w.content doc.uri) "css" cssApi
    (env.fetchBehavior (w.content doc.uri) "css") 200 "OK" none m1 rfl hsize hfetch rfl
  have hfull : processDocument w env cfg doc opts =
      { exc := none
        world :=
          { w with fs := fun p =>
              if p = createMinifiedFileName doc.fileName opts.filePref then m1 else w.fs p }
        events :=
          [Event.apiRequest cssApi.url (requestBody (w.content doc.uri))] ++
            ([Event.fsWrite (createMinifiedFileName doc.fileName opts.filePref) m1] ++
              (if cfg.autoOpenNewFile = true then
                [Event.docOpen (createMinifiedFileName doc.fileName opts.filePref)] else []) ++
              [Event.notifyInfo (l10nT (formatSizeReductionMessage cfg
                (lastPathSegment (createMinifiedFileName doc.fileName opts.filePref))
                (calculateStats (w.content doc.uri) m1) true) [])]) } := by
    unfold processDocument
    rw [hft]
    dsimp only
    rw [if_neg (by simp [isValidFileType]), if_neg htext, hrun]
    dsimp only
    rw [if_pos hnf]
    unfold saveAsNewFile
    rw [hwrite]
  rw [hfull]
  exact ⟨rfl, rfl, rfl, rfl⟩

theorem countApi_append (a b : List Event) :
    countApiRequests (a ++ b) = countApiRequests a + countApiRequests b := by
  simp [countApiRequests, List.filter_append]

theorem countReplaces_append (a b : List Event) :
    countReplaces (a ++ b) = countReplaces a + countReplaces b := by
  simp [countReplaces, List.filter_append]

theorem countFsWrites_append (a b : List Event) :
    countFsWrites (a ++ b) = countFsWrites a + countFsWrites b := by
  simp [countFsWrites, List.filter_append]

theorem counts_ifOpen (c : Bool) (x : String) :
    countApiRequests (if c = true then [Event.docOpen x] else []) = 0
    ∧ countFsWrites (if c = true then [Event.docOpen x] else []) = 0 := by
  cases c <;> exact ⟨rfl, rfl⟩

/-- C10: with an active editor holding a validated css document, one
manual invocation runs the pipeline twice on that document — the in-place
command issues two network requests and two full-document replacements,
and the new-file command issues two network requests and two file
writes. -/
theorem manual_command_double_pipeline
    (w : World) (env : Env) (cfg : Config) (doc : Doc) (m1 m2 : String)
    (ha : w.activeDoc = some doc)
    (hft : doc.languageId = "css")
    (h1 : w.content doc.uri ≠ "")
    (hs1 : utf8Len (w.content doc.uri) ≤ MAX_FILE_SIZE_BYTES)
    (hf1 : env.fetchBehavior (w.content doc.uri) "css" =
      { timerWins := false, outcome := .response 200 "OK" none m1 })
    (hm1 : m1 ≠ "")
    (hs2 : utf8Len m1 ≤ MAX_FILE_SIZE_BYTES)
    (hf2 : env.fetchBehavior m1 "css" =
      { timerWins := false, outcome := .response 200 "OK" none m2 })
    (hwr : ∀ p, env.writeOutcome p = Except.ok ())
    (hpre : cfg.minifiedNewFilePre ≠ "") :
    countApiRequests (minifyCommand w env cfg).events = 2
    ∧ countReplaces (minifyCommand w env cfg).events = 2
    ∧ countApiRequests (minifyInNewFileCommand w env cfg).events = 2
    ∧ countFsWrites (minifyInNewFileCommand w env cfg).events = 2 := by
  have hA := processDocument_inplace_spec w env cfg doc { debugSource := some "manual" } m1
    hft h1 hs1 hf1 (by simp) (hwr doc.uri)
  have hc1 : (processDocument w env cfg doc
      { debugSource := some "manual" }).world.content doc.uri = m1 := by
    rw [hA.2.1]
    simp
  have hB := processDocument_inplace_spec
    (processDocument w env cfg doc { debugSource := some "manual" }).world env cfg doc {} m2
    hft (by rw [hc1]; exact hm1) (by rw [hc1]; exact hs2) (by rw [hc1]; exact hf2)
    (by simp) (hwr doc.uri)
  have hmc : (minifyCommand w env cfg).events =
      (processDocument w env cfg doc { debugSource := some "manual" }).events ++
      (processDocument (processDocument w env cfg doc
        { debugSource := some "manual" }).world env cfg doc {}).events := by
    unfold minifyCommand
    rw [ha]
    dsimp only
    rw [hA.1]
  have hC := processDocument_newfile_spec w env cfg doc
    { saveAsNewFile := true, filePref := cfg.minifiedNewFilePre, debugSource := some "manual" }
    m1 hft h1 hs1 hf1 ⟨rfl, hpre⟩ (hwr _)
  have hc2 : (processDocument w env cfg doc
      { saveAsNewFile := true, filePref := cfg.minifiedNewFilePre
        debugSource := some "manual" }).world.content doc.uri = w.content doc.uri := by
    rw [hC.2.1]
  have hD := processDocument_newfile_spec
    (processDocument w env cfg doc
      { saveAsNewFile := true, filePref := cfg.minifiedNewFilePre
        debugSource := some "manual" }).world env cfg doc
    { saveAsNewFile := true, filePref := cfg.minifiedNewFilePre, debugSource := some "manual" }
    m1 hft (by rw [hc2]; exact h1) (by rw [hc2]; exact hs1) (by rw [hc2]; exact hf1)
    ⟨rfl, hpre⟩ (hwr _)
  have hmc2 : (minifyInNewFileCommand w env cfg).events =
      (processDocument w env cfg doc
        { saveAsNewFile := true, filePref := cfg.minifiedNewFilePre
          debugSource := some "manual" }).events ++
      (processDocument (processDocument w env cfg doc
        { saveAsNewFile := true, filePref := cfg.minifiedNewFilePre
          debugSource := some "manual" }).world env cfg doc
        { saveAsNewFile := true, filePref := cfg.minifiedNewFilePre
          debugSource := some "manual" }).events := by
    unfold minifyInNewFileCommand
    rw [ha]
    dsimp only
    rw [hC.1]
  refine ⟨?_, ?_, ?_, ?_⟩
  · rw [hmc, countApi_append, hA.2.2.2, hB.2.2.2]
    rfl
  · rw [hmc, countReplaces_append, hA.2.2.2, hB.2.2.2]
    rfl
  · rw [hmc2, hC.2.2.2, hD.2.2.2]
    by_cases hao : cfg.autoOpenNewFile = true
    · simp only [if_pos hao]
      rfl
    · simp only [if_neg hao]
      rfl
  · rw [hmc2, hC.2.2.2, hD.2.2.2]
    by_cases hao : cfg.autoOpenNewFile = true
    · simp only [if_pos hao]
      rfl
    · simp only [if_neg hao]
      rfl

/-- C10 witness at a concrete document and environment (minifying "x"
yields "y", minifying "y" yields "z"). -/
theorem manual_command_double_pipeline_witness :
    countApiRequests (minifyCommand w1 env10 cfgD).events = 2
    ∧ countReplaces (minifyCommand w1 env10 cfgD).events = 2
    ∧ countApiRequests (minifyInNewFileCommand w1 env10 cfgD).events = 2
    ∧ countFsWrites (minifyInNewFileCommand w1 env10 cfgD).events = 2 :=
  manual_command_double_pipeline w1 env10 cfgD doc1 "y" "z" rfl rfl (by decide) (by decide)
    rfl (by decide) (by decide) rfl (fun _ => rfl) (by decide)

end Minifier
